import Mathlib

/-!
Shallow embedding of the RGBmatrixPanelCPLD driver core
(firmware/RGBmatrixPanelCPLD.cpp) and proofs about its framebuffer
encoding, fill path, double-buffer controller and refresh state machine.

The framebuffer memory is modelled as a total function from byte
addresses to byte values; pointer arithmetic on the single allocation is
modelled with explicit offsets (frontOff / backOff).  All definitions
are transcribed from the C++ source; the only definitions written from
the specification are the reference pixel decoder (readPixel), which the
source does not contain, and the availability-indexed model of the
hardware-timer acquisition in begin().
-/

namespace RGB

/-- Framebuffer memory: byte address to byte value. -/
abbrev Buf := Nat → Nat

/-- Geometry fields computed in the constructors (lines 109-146):
width and height are truncated to multiples of 32. -/
structure Cfg where
  width : Nat
  height : Nat
  depth : Nat
  dbe : Bool
deriving DecidableEq

/-- row_size = width*(height>>5)  (line 114). -/
def Cfg.row_size (c : Cfg) : Nat := c.width * (c.height >>> 5)

/-- plane_size = width*(height>>1)  (line 115). -/
def Cfg.plane_size (c : Cfg) : Nat := c.width * (c.height >>> 1)

/-- The constructor's geometry computation: width = (x>>5)<<5, etc. -/
def mkCfg (x y d : Nat) (dbe : Bool) : Cfg :=
  { width := (x >>> 5) <<< 5, height := (y >>> 5) <<< 5, depth := d, dbe := dbe }

/-- A single byte store. -/
def writeByte (m : Buf) (a v : Nat) : Buf :=
  fun a2 => if a2 = a then v else m a2

/-- C memset: set n bytes starting at off to v. -/
def memset (m : Buf) (off v n : Nat) : Buf :=
  fun a => if off ≤ a ∧ a < off + n then v else m a

/-- The source's bit-extraction idiom ((c & (1<<i)) >> i). -/
def bitv (c i : Nat) : Nat := (c &&& (1 <<< i)) >>> i

/-- Upper-half-pixel byte update (drawPixel, lines 223-254):
keep bits 0-2 and 6-7 (mask 0xC7), place the three extracted color bits
at positions 5 (red), 4 (green), 3 (blue). -/
def encUpper (old c rb gb bb : Nat) : Nat :=
  (old &&& 0xC7) ||| (bitv c rb <<< 5) ||| (bitv c gb <<< 4) ||| (bitv c bb <<< 3)

/-- Lower-half-pixel byte update (drawPixel, lines 256-289):
keep bits 3-7 (mask 0xF8), place the three extracted color bits at
positions 2 (red), 1 (green), 0 (blue). -/
def encLower (old c rb gb bb : Nat) : Nat :=
  (old &&& 0xF8) ||| (bitv c rb <<< 2) ||| (bitv c gb <<< 1) ||| (bitv c bb <<< 0)

/-- Read-modify-write of one byte through encUpper. -/
def drawWriteU (m : Buf) (a c rb gb bb : Nat) : Buf :=
  writeByte m a (encUpper (m a) c rb gb bb)

/-- Read-modify-write of one byte through encLower. -/
def drawWriteL (m : Buf) (a c rb gb bb : Nat) : Buf :=
  writeByte m a (encLower (m a) c rb gb bb)

/-- The four guarded upper-half plane writes of drawPixel (lines 223-254),
with the literal bit positions of the source. ofs is the in-plane byte
offset y_int*row_size + x. -/
def drawHalfU (m : Buf) (depth b ps ofs c : Nat) : Buf :=
  let m0 := if 0 < depth then drawWriteU m (b + ofs) c 15 10 4 else m
  let m1 := if 1 < depth then drawWriteU m0 (b + ps + ofs) c 14 9 3 else m0
  let m2 := if 2 < depth then drawWriteU m1 (b + 2 * ps + ofs) c 13 8 2 else m1
  if 3 < depth then drawWriteU m2 (b + 3 * ps + ofs) c 12 7 1 else m2

/-- The four guarded lower-half plane writes of drawPixel (lines 256-289). -/
def drawHalfL (m : Buf) (depth b ps ofs c : Nat) : Buf :=
  let m0 := if 0 < depth then drawWriteL m (b + ofs) c 15 10 4 else m
  let m1 := if 1 < depth then drawWriteL m0 (b + ps + ofs) c 14 9 3 else m0
  let m2 := if 2 < depth then drawWriteL m1 (b + 2 * ps + ofs) c 13 8 2 else m1
  if 3 < depth then drawWriteL m2 (b + 3 * ps + ofs) c 12 7 1 else m2

/-- Serpentine row flip (lines 199-221): y_int = y%32, flipped to
31 - y%32 on odd panel rows. -/
def pixY (y : Nat) : Nat :=
  if (y >>> 5) % 2 = 0 then y % 32 else 31 - y % 32

/-- Serpentine column transform (lines 211-221):
even panel row: x%width + panel_row*width;
odd panel row: (width-1) - x%width + panel_row*width. -/
def pixAddrX (cfg : Cfg) (x y : Nat) : Nat :=
  if (y >>> 5) % 2 = 0 then x % cfg.width + (y >>> 5) * cfg.width
  else cfg.width - 1 - x % cfg.width + (y >>> 5) * cfg.width

/-- Driver state.  mem is the single allocation; frontOff/backOff model
the front_buffer/back_buffer pointers as offsets into it. -/
structure St where
  cfg : Cfg
  mem : Buf
  frontOff : Nat
  backOff : Nat
  swapReq : Bool
  resyncFlag : Bool
  row : Nat
  plane : Nat

/-- drawPixel (lines 193-290).  Out-of-range coordinates are a no-op;
in-range writes go to the back buffer through the serpentine transform,
the upper half (y_int<16) at color bits 3-5, the lower half at bits 0-2. -/
def drawPixel (s : St) (x y : Int) (c : Nat) : St :=
  if 0 ≤ y ∧ 0 ≤ x ∧ y < (s.cfg.height : Int) ∧ x < (s.cfg.width : Int) then
    let yi := pixY y.toNat
    let xx := pixAddrX s.cfg x.toNat y.toNat
    if yi < 16 then
      { s with mem := drawHalfU s.mem s.cfg.depth s.backOff s.cfg.plane_size
                        (yi * s.cfg.row_size + xx) c }
    else
      { s with mem := drawHalfL s.mem s.cfg.depth s.backOff s.cfg.plane_size
                        ((yi - 16) * s.cfg.row_size + xx) c }
  else s

/-- The per-plane fill byte of fillScreen (lines 298-304): bits
12+p (red), 7+p (green), 1+p (blue) packed at positions 2,1,0 and
duplicated into both halves of the byte. -/
def fillColor (c p : Nat) : Nat :=
  let t := (bitv c (12 + p) <<< 2) ||| (bitv c (7 + p) <<< 1) ||| bitv c (1 + p)
  t ||| (t <<< 3)

/-- fillScreen (lines 292-316): bulk-fill each plane (plane index
depth-p-1 receives the byte derived from bit positions 12+p, 7+p, 1+p),
then OR bit 6 and then bit 7 into the last byte of each row of each
plane. -/
def fillScreen (s : St) (c : Nat) : St :=
  let cfg := s.cfg
  let bufSize := cfg.width * (cfg.height >>> 1)
  let m1 := (List.range cfg.depth).foldl
    (fun m p =>
      memset m (s.backOff + (cfg.depth - p - 1) * cfg.plane_size) (fillColor c p) bufSize)
    s.mem
  let m2 := (List.range (cfg.depth * 16)).foldl
    (fun m i =>
      writeByte m (s.backOff + cfg.row_size * (i + 1) - 1)
        (m (s.backOff + cfg.row_size * (i + 1) - 1) ||| (1 <<< 6)))
    m1
  let m3 := (List.range (cfg.depth * 16)).foldl
    (fun m i =>
      writeByte m (s.backOff + cfg.row_size * (i + 1) - 1)
        (m (s.backOff + cfg.row_size * (i + 1) - 1) ||| (1 <<< 7)))
    m2
  { s with mem := m3 }

/-- Construction (constructors lines 109-146 and init lines 56-107):
allocate (junk models the uninitialized malloc content), set the
buffer pointers, fill-and-stamp each buffer, clear the swap flag and
park the cursor at row 15, plane depth-1. -/
def construct (x y d : Nat) (dbe : Bool) (junk : Buf) : St :=
  let cfg := mkCfg x y d dbe
  let bufSize := if dbe then 2 * (d * cfg.plane_size) else d * cfg.plane_size
  let s0 : St :=
    { cfg := cfg, mem := junk, frontOff := 0,
      backOff := if dbe then bufSize >>> 1 else 0,
      swapReq := false, resyncFlag := false, row := 0, plane := 0 }
  let s1 :=
    if dbe then
      let sa := fillScreen s0 0
      let sb := { sa with frontOff := sa.backOff, backOff := sa.frontOff }
      fillScreen sb 0
    else fillScreen s0 0
  { s1 with swapReq := false, row := 15, plane := d - 1 }

/-- swapBuffers (lines 185-191). -/
def swapBuffersOp (s : St) : St :=
  if s.cfg.dbe then { s with swapReq := true } else { s with swapReq := false }

/-- resync (lines 452-454). -/
def resyncOp (s : St) : St := { s with resyncFlag := true }

/-- The state changes of begin() (lines 148-156): reset the cursor and
request a resync.  Timer acquisition is modelled separately below. -/
def beginOp (s : St) : St :=
  { s with row := 15, plane := s.cfg.depth - 1, resyncFlag := true }

/-- One serial DMA burst request: source offset and byte count. -/
structure Burst where
  src : Nat
  len : Nat
deriving DecidableEq

/-- Observable output of one refresh tick: the period programmed into
the timer and the serial bursts started. -/
structure TickOut where
  period : Nat
  bursts : List Burst
deriving DecidableEq

/-- updateDisplay (lines 403-450), one refresh-timer tick:
at the frame boundary (row 15, plane depth-1) honour pending resync and
swap requests; program the next period from the pre-advance plane
(line 435); advance the cursor (lines 437-446); start one burst of
row_size bytes from the front buffer at the post-advance cursor
(line 448). -/
def updateDisplay (s : St) : St × TickOut :=
  let s1 :=
    if s.row = 15 ∧ s.plane = s.cfg.depth - 1 then
      let sa := if s.resyncFlag then { s with resyncFlag := false } else s
      if sa.swapReq then
        { sa with frontOff := sa.backOff, backOff := sa.frontOff, swapReq := false }
      else sa
    else s
  let period := 74 * (1 <<< (s1.cfg.depth - s1.plane - 1))
  let s2 :=
    if s1.row = 15 then
      if s1.plane = s1.cfg.depth - 1 then { s1 with row := 0, plane := 0 }
      else { s1 with row := 0, plane := s1.plane + 1 }
    else { s1 with row := s1.row + 1 }
  (s2,
   { period := period,
     bursts := [{ src := s2.frontOff + s2.plane * s2.cfg.plane_size + s2.row * s2.cfg.row_size,
                  len := s2.cfg.row_size }] })

/-- Foreground and interrupt events the driver reacts to. -/
inductive Ev where
  | draw (x y : Int) (c : Nat)
  | fill (c : Nat)
  | swapB
  | tickE
  | resyncE
deriving DecidableEq

/-- One event step. -/
def stepEv (s : St) : Ev → St
  | .draw x y c => drawPixel s x y c
  | .fill c => fillScreen s c
  | .swapB => swapBuffersOp s
  | .tickE => (updateDisplay s).1
  | .resyncE => resyncOp s

/-- Run a finite event sequence. -/
def runEv (s : St) (es : List Ev) : St := es.foldl stepEv s

/-- The list of timer periods programmed over the next n ticks. -/
def runPeriods (s : St) : Nat → List Nat
  | 0 => []
  | n + 1 => (updateDisplay s).2.period :: runPeriods (updateDisplay s).1 n

/-- The state after n refresh ticks. -/
def afterTicks (s : St) : Nat → St
  | 0 => s
  | n + 1 => afterTicks (updateDisplay s).1 n

/-- The cursor-advance step of updateDisplay (lines 437-446), isolated. -/
def cursorStep (depth row plane : Nat) : Nat × Nat :=
  if row = 15 then
    if plane = depth - 1 then (0, 0) else (0, plane + 1)
  else (row + 1, plane)

/-- Period trace of the cursor machine alone. -/
def cursorPeriods (depth row plane : Nat) : Nat → List Nat
  | 0 => []
  | n + 1 =>
    (74 * (1 <<< (depth - plane - 1))) ::
      cursorPeriods depth (cursorStep depth row plane).1 (cursorStep depth row plane).2 n

/-- The period sequence claimed by the spec for one frame: 16 copies of
74*2^(D-1), then 16 copies of 74*2^(D-2), down to 16 copies of 74. -/
def bcmSeq (d : Nat) : List Nat :=
  ((List.range d).map (fun i => List.replicate 16 (74 * 2 ^ (d - 1 - i)))).flatten

/-- MSB-first concatenation of the bits f 0, f 1, ..., f (d-1). -/
def decodeBits (f : Nat → Bool) : Nat → Nat
  | 0 => 0
  | d + 1 => decodeBits f d * 2 + (f d).toNat

/-- Byte address holding pixel (x, y) in plane p of the buffer at off. -/
def planeByteAddr (cfg : Cfg) (off x y p : Nat) : Nat :=
  off + p * cfg.plane_size +
    ((if pixY y < 16 then pixY y else pixY y - 16) * cfg.row_size + pixAddrX cfg x y)

/-- Modelled from the spec: the reference decoder's read of one encoded
color bit (channel ch: 2 = red, 1 = green, 0 = blue) of pixel (x, y) in
plane p.  The source has no read-back path; the byte layout follows the
spec's wire format (upper-half pixel at bits 3-5, lower at bits 0-2). -/
def chanBit (cfg : Cfg) (m : Buf) (off x y p ch : Nat) : Bool :=
  Nat.testBit (m (planeByteAddr cfg off x y p)) ((if pixY y < 16 then 3 else 0) + ch)

/-- Modelled from the spec: the reference decoder, returning the
depth-bit (red, green, blue) values of pixel (x, y). -/
def readPixel (cfg : Cfg) (m : Buf) (off x y : Nat) : Nat × Nat × Nat :=
  (decodeBits (fun p => chanBit cfg m off x y p 2) cfg.depth,
   decodeBits (fun p => chanBit cfg m off x y p 1) cfg.depth,
   decodeBits (fun p => chanBit cfg m off x y p 0) cfg.depth)

/-- The control-bit invariant of the claim: in the buffer of
depth*16*row_size bytes at off, bits 6 and 7 are set on every byte at
offset k*row_size - 1 (1 ≤ k ≤ depth*16) and clear on every other byte. -/
def ctrlInv (cfg : Cfg) (m : Buf) (off : Nat) : Prop :=
  (∀ k, 1 ≤ k → k ≤ cfg.depth * 16 →
      Nat.testBit (m (off + (k * cfg.row_size - 1))) 6 = true ∧
      Nat.testBit (m (off + (k * cfg.row_size - 1))) 7 = true) ∧
  (∀ a, a < cfg.depth * 16 * cfg.row_size →
      (∀ k, 1 ≤ k → k ≤ cfg.depth * 16 → a ≠ k * cfg.row_size - 1) →
      Nat.testBit (m (off + a)) 6 = false ∧ Nat.testBit (m (off + a)) 7 = false)

/-- Modelled from the spec and lines 157-178: which timer instance
begin() claims, given which instances are available.  The source tries
TIMER3, TIMER4, TIMER5, TIMER6, TIMER7 in that order and stops at the
first success. -/
def beginClaimed (avail : Nat → Bool) : Option Nat :=
  if avail 3 then some 3
  else if avail 4 then some 4
  else if avail 5 then some 5
  else if avail 6 then some 6
  else if avail 7 then some 7
  else none

/-- begin() is declared void (header line 63): its return value carries
no information, whatever the timer availability. -/
def beginReturn (_avail : Nat → Bool) : Unit := ()

/-- The refresh engine runs only if begin() armed a timer. -/
def refreshStarted (avail : Nat → Bool) : Bool := (beginClaimed avail).isSome

/-- Color444 (lines 331-336). -/
def Color444 (r g b : Nat) : Nat :=
  ((r &&& 0xF) <<< 12) ||| ((g &&& 0xF) <<< 7) ||| ((b &&& 0xF) <<< 1)

end RGB

namespace RGB

/-! ### Basic lemmas about the byte-level primitives -/

theorem writeByte_self (m : Buf) (a v : Nat) : writeByte m a v a = v := by
  simp [writeByte]

theorem writeByte_ne (m : Buf) (a v a2 : Nat) (h : a2 ≠ a) : writeByte m a v a2 = m a2 := by
  simp [writeByte, h]

theorem bitv_eq_toNat (c i : Nat) : bitv c i = (c.testBit i).toNat := by
  rw [bitv, Nat.one_shiftLeft, Nat.and_two_pow, Nat.shiftRight_eq_div_pow,
    Nat.mul_div_cancel _ (Nat.pos_pow_of_pos i (by omega))]

theorem toNat_testBit_zero (b : Bool) : (b.toNat).testBit 0 = b := by
  cases b <;> rfl

/-! ### Lemmas about one refresh tick -/

theorem updateDisplay_cfg (s : St) : (updateDisplay s).1.cfg = s.cfg := by
  simp only [updateDisplay]
  split_ifs <;> rfl

theorem updateDisplay_mem (s : St) : (updateDisplay s).1.mem = s.mem := by
  simp only [updateDisplay]
  split_ifs <;> rfl

theorem updateDisplay_row_plane (s : St) :
    ((updateDisplay s).1.row, (updateDisplay s).1.plane) = cursorStep s.cfg.depth s.row s.plane := by
  simp only [updateDisplay, cursorStep]
  split_ifs <;> simp_all

theorem updateDisplay_period (s : St) :
    (updateDisplay s).2.period = 74 * (1 <<< (s.cfg.depth - s.plane - 1)) := by
  simp only [updateDisplay]
  split_ifs <;> rfl

theorem updateDisplay_offsets (s : St) :
    ((updateDisplay s).1.frontOff = s.frontOff ∧ (updateDisplay s).1.backOff = s.backOff) ∨
    ((updateDisplay s).1.frontOff = s.backOff ∧ (updateDisplay s).1.backOff = s.frontOff) := by
  simp only [updateDisplay]
  split_ifs <;> simp

theorem updateDisplay_frontOff_change (s : St)
    (h : (updateDisplay s).1.frontOff ≠ s.frontOff) :
    s.row = 15 ∧ s.plane = s.cfg.depth - 1 ∧
    (updateDisplay s).1.row = 0 ∧ (updateDisplay s).1.plane = 0 := by
  by_cases hb : s.row = 15 ∧ s.plane = s.cfg.depth - 1
  · refine ⟨hb.1, hb.2, ?_⟩
    have := updateDisplay_row_plane s
    rw [cursorStep, if_pos hb.1, if_pos hb.2] at this
    exact ⟨congrArg Prod.fst this, congrArg Prod.snd this⟩
  · exfalso
    apply h
    simp only [updateDisplay, if_neg hb]
    split_ifs <;> rfl

theorem updateDisplay_swapReq (s : St) (h : s.swapReq = false) :
    (updateDisplay s).1.swapReq = false := by
  simp only [updateDisplay]
  split_ifs <;> simp_all

/-! ### Lemmas about the foreground operations -/

theorem drawPixel_frontOff (s : St) (x y : Int) (c : Nat) :
    (drawPixel s x y c).frontOff = s.frontOff := by
  simp only [drawPixel]
  split_ifs <;> rfl

theorem drawPixel_backOff (s : St) (x y : Int) (c : Nat) :
    (drawPixel s x y c).backOff = s.backOff := by
  simp only [drawPixel]
  split_ifs <;> rfl

theorem drawPixel_cfg (s : St) (x y : Int) (c : Nat) :
    (drawPixel s x y c).cfg = s.cfg := by
  simp only [drawPixel]
  split_ifs <;> rfl

theorem drawPixel_swapReq (s : St) (x y : Int) (c : Nat) :
    (drawPixel s x y c).swapReq = s.swapReq := by
  simp only [drawPixel]
  split_ifs <;> rfl

theorem fillScreen_frontOff (s : St) (c : Nat) : (fillScreen s c).frontOff = s.frontOff := rfl

theorem fillScreen_backOff (s : St) (c : Nat) : (fillScreen s c).backOff = s.backOff := rfl

theorem fillScreen_cfg (s : St) (c : Nat) : (fillScreen s c).cfg = s.cfg := rfl

theorem fillScreen_swapReq (s : St) (c : Nat) : (fillScreen s c).swapReq = s.swapReq := rfl

theorem swapBuffersOp_frontOff (s : St) : (swapBuffersOp s).frontOff = s.frontOff := by
  unfold swapBuffersOp
  split_ifs <;> rfl

/-! ### The refresh period trace factors through the cursor machine -/

theorem runPeriods_eq_cursorPeriods (n : Nat) :
    ∀ s : St, runPeriods s n = cursorPeriods s.cfg.depth s.row s.plane n := by
  induction n with
  | zero => intro s; rfl
  | succ k ih =>
    intro s
    have hrp := updateDisplay_row_plane s
    have hr : (updateDisplay s).1.row = (cursorStep s.cfg.depth s.row s.plane).1 :=
      congrArg Prod.fst hrp
    have hp : (updateDisplay s).1.plane = (cursorStep s.cfg.depth s.row s.plane).2 :=
      congrArg Prod.snd hrp
    show (updateDisplay s).2.period :: runPeriods (updateDisplay s).1 k = _
    rw [ih, updateDisplay_cfg, updateDisplay_period, hr, hp]
    rfl

end RGB

namespace RGB

/-! ### Claim C5: one burst of row_size bytes per tick, from the
post-advance cursor -/

/-- Claim C5: on every refresh tick, exactly one serial burst is started;
its length is exactly row_size bytes and its source address is
front + plane*plane_size + row*row_size where (plane, row) is the cursor
value after that tick's advance step (and front is the front pointer at
burst time, i.e. after any frame-boundary swap of this tick). -/
theorem C5_row_per_tick (s : St) :
    (updateDisplay s).2.bursts =
      [{ src := (updateDisplay s).1.frontOff +
                (updateDisplay s).1.plane * s.cfg.plane_size +
                (updateDisplay s).1.row * s.cfg.row_size,
         len := s.cfg.row_size }] := by
  simp only [updateDisplay]
  split_ifs <;> rfl

/-! ### Claim C7: timer acquisition in begin() -/

theorem beginClaimed_eq_find (avail : Nat → Bool) :
    beginClaimed avail = List.find? avail [3, 4, 5, 6, 7] := by
  simp only [beginClaimed, List.find?]
  split_ifs with h3 h4 h5 h6 h7 <;> simp_all

/-- Claim C7 (counterexample to the reporting part): begin() is declared
void, so no reading of its return value can distinguish the run in which
every timer instance is busy (TimerUnavailable) from the run in which
all are free. -/
theorem C7_counterexample :
    ¬ ∃ g : Unit → Bool,
        g (beginReturn (fun _ => false)) = true ∧ g (beginReturn (fun _ => true)) = false := by
  rintro ⟨g, h1, h2⟩
  rw [beginReturn] at h1 h2
  rw [h1] at h2
  exact Bool.noConfusion h2

/-- Claim C7 (amended): begin() tries the timer instances TIMER3, TIMER4,
TIMER5, TIMER6, TIMER7 in that ranked order, claiming the first available
one; when every instance is already in use, none is claimed and the
refresh engine does not start.  The failure is not reported to the caller
(begin returns void). -/
theorem C7_amended_timer_priority (avail : Nat → Bool)
    (hbusy : ∀ t, avail t = false) :
    beginClaimed avail = List.find? avail [3, 4, 5, 6, 7] ∧
    beginClaimed avail = none ∧ refreshStarted avail = false := by
  refine ⟨beginClaimed_eq_find avail, ?_, ?_⟩
  · simp [beginClaimed, hbusy]
  · simp [refreshStarted, beginClaimed, hbusy]

/-- Witness for C7_amended_timer_priority at the all-busy instance. -/
theorem C7_amended_timer_priority_witness :
    (∀ t, (fun _ : Nat => false) t = false) ∧
    (beginClaimed (fun _ => false) = List.find? (fun _ => false) [3, 4, 5, 6, 7] ∧
     beginClaimed (fun _ => false) = none ∧ refreshStarted (fun _ => false) = false) :=
  ⟨fun _ => rfl, C7_amended_timer_priority (fun _ => false) (fun _ => rfl)⟩

/-! ### Claim C4: the front pointer changes only at frame-start ticks -/

theorem stepEv_frontOff_change (s : St) (e : Ev)
    (h : (stepEv s e).frontOff ≠ s.frontOff) :
    e = Ev.tickE ∧ (stepEv s e).row = 0 ∧ (stepEv s e).plane = 0 ∧
    s.row = 15 ∧ s.plane = s.cfg.depth - 1 := by
  cases e with
  | draw x y c => exact absurd (drawPixel_frontOff s x y c) h
  | fill c => exact absurd (fillScreen_frontOff s c) h
  | swapB => exact absurd (swapBuffersOp_frontOff s) h
  | resyncE => exact absurd rfl h
  | tickE =>
    have hc := updateDisplay_frontOff_change s h
    exact ⟨rfl, hc.2.2.1, hc.2.2.2, hc.1, hc.2.1⟩

/-- Claim C4: for every run of the driver (any event sequence, in
particular refresh ticks interleaved with swapBuffers calls), whenever
a step changes the front-buffer pointer, that step is a refresh tick
whose cursor after the advance step is (row 0, plane 0) - a frame-start
tick - so the front pointer never changes at any other tick or event. -/
theorem C4_swap_only_at_frame_start (s0 : St) (pre : List Ev) (e : Ev)
    (hchange : (runEv s0 (pre ++ [e])).frontOff ≠ (runEv s0 pre).frontOff) :
    e = Ev.tickE ∧
    (runEv s0 (pre ++ [e])).row = 0 ∧ (runEv s0 (pre ++ [e])).plane = 0 ∧
    (runEv s0 pre).row = 15 ∧ (runEv s0 pre).plane = (runEv s0 pre).cfg.depth - 1 := by
  have hrun : runEv s0 (pre ++ [e]) = stepEv (runEv s0 pre) e := by
    simp [runEv, List.foldl_append]
  rw [hrun] at hchange ⊢
  exact stepEv_frontOff_change (runEv s0 pre) e hchange

/-- Witness for C4_swap_only_at_frame_start: a double-buffered 32x32
depth-1 panel, a swap request followed by one tick; the tick moves the
front pointer and lands on cursor (0, 0). -/
theorem C4_swap_only_at_frame_start_witness :
    ((runEv (beginOp (construct 32 32 1 true (fun _ => 0))) ([Ev.swapB] ++ [Ev.tickE])).frontOff ≠
      (runEv (beginOp (construct 32 32 1 true (fun _ => 0))) [Ev.swapB]).frontOff) ∧
    (Ev.tickE = Ev.tickE ∧
     (runEv (beginOp (construct 32 32 1 true (fun _ => 0))) ([Ev.swapB] ++ [Ev.tickE])).row = 0 ∧
     (runEv (beginOp (construct 32 32 1 true (fun _ => 0))) ([Ev.swapB] ++ [Ev.tickE])).plane = 0 ∧
     (runEv (beginOp (construct 32 32 1 true (fun _ => 0))) [Ev.swapB]).row = 15 ∧
     (runEv (beginOp (construct 32 32 1 true (fun _ => 0))) [Ev.swapB]).plane =
       (runEv (beginOp (construct 32 32 1 true (fun _ => 0))) [Ev.swapB]).cfg.depth - 1) :=
  ⟨by decide,
   C4_swap_only_at_frame_start (beginOp (construct 32 32 1 true (fun _ => 0)))
     [Ev.swapB] Ev.tickE (by decide)⟩

end RGB

namespace RGB

/-! ### Claim C3: the BCM period schedule -/

/-- Claim C3 (counterexample): on a 32x32 depth-3 panel, over the first
complete frame of 16*3 = 48 ticks after begin(), the programmed period
sequence is not 16 copies of 74*2^2, then 16 of 74*2^1, then 16 of 74;
the first tick of the frame programs 74 (computed from the pre-advance
plane depth-1), not 296. -/
theorem C3_counterexample :
    runPeriods (beginOp (construct 32 32 3 false (fun _ => 0))) 48 ≠ bcmSeq 3 := by
  decide

/-- Claim C3 (amended): the period programmed at the frame-boundary tick
still belongs to the previous plane, so the claimed schedule holds for
the window shifted by one tick: for every constructed panel with depth
D in [1,4], the periods programmed at ticks 2 through 16*D+1 after
begin() are exactly 16 copies of 74*2^(D-1), then 16 copies of
74*2^(D-2), ..., down to 16 copies of 74. -/
theorem C3_amended_bcm_schedule (x y d : Nat) (dbe : Bool) (junk : Buf)
    (hd1 : 1 ≤ d) (hd4 : d ≤ 4) :
    runPeriods (afterTicks (beginOp (construct x y d dbe junk)) 1) (16 * d) = bcmSeq d := by
  have hccfg : (construct x y d dbe junk).cfg = mkCfg x y d dbe := by
    simp only [construct]
    split_ifs <;> rfl
  have hcfg : (beginOp (construct x y d dbe junk)).cfg.depth = d := by
    show (construct x y d dbe junk).cfg.depth = d
    rw [hccfg]
    rfl
  have hrow : (beginOp (construct x y d dbe junk)).row = 15 := rfl
  have hplane : (beginOp (construct x y d dbe junk)).plane = d - 1 := by
    show (construct x y d dbe junk).cfg.depth - 1 = d - 1
    rw [hccfg]
    rfl
  have h1 : afterTicks (beginOp (construct x y d dbe junk)) 1 =
      (updateDisplay (beginOp (construct x y d dbe junk))).1 := rfl
  rw [h1, runPeriods_eq_cursorPeriods, updateDisplay_cfg, hcfg]
  have hrp := updateDisplay_row_plane (beginOp (construct x y d dbe junk))
  rw [hcfg, hrow, hplane] at hrp
  rw [cursorStep, if_pos rfl, if_pos rfl] at hrp
  have hr0 : (updateDisplay (beginOp (construct x y d dbe junk))).1.row = 0 := by
    have := congrArg Prod.fst hrp
    simpa using this
  have hp0 : (updateDisplay (beginOp (construct x y d dbe junk))).1.plane = 0 := by
    have := congrArg Prod.snd hrp
    simpa using this
  rw [hr0, hp0]
  interval_cases d <;> decide

/-- Witness for C3_amended_bcm_schedule at depth 3. -/
theorem C3_amended_bcm_schedule_witness :
    1 ≤ 3 ∧ 3 ≤ 4 ∧
    runPeriods (afterTicks (beginOp (construct 32 32 3 false (fun _ => 0))) 1) (16 * 3) =
      bcmSeq 3 :=
  ⟨by decide, by decide,
   C3_amended_bcm_schedule 32 32 3 false (fun _ => 0) (by decide) (by decide)⟩

/-! ### Claim C9: swapBuffers is a no-op without double buffering -/

theorem stepEv_cfg (s : St) (e : Ev) : (stepEv s e).cfg = s.cfg := by
  cases e with
  | draw x y c => exact drawPixel_cfg s x y c
  | fill c => rfl
  | swapB =>
    simp only [stepEv, swapBuffersOp]
    split_ifs <;> rfl
  | tickE => exact updateDisplay_cfg s
  | resyncE => rfl

theorem stepEv_swapReq_false (s : St) (e : Ev)
    (hdbe : s.cfg.dbe = false) (h : s.swapReq = false) :
    (stepEv s e).swapReq = false := by
  cases e with
  | draw x y c =>
    show (drawPixel s x y c).swapReq = false
    rw [drawPixel_swapReq]; exact h
  | fill c => exact h
  | swapB => simp [stepEv, swapBuffersOp, hdbe]
  | tickE => exact updateDisplay_swapReq s h
  | resyncE => exact h

theorem runEv_cfg (s : St) (es : List Ev) : (runEv s es).cfg = s.cfg := by
  induction es generalizing s with
  | nil => rfl
  | cons e t ih =>
    show (runEv (stepEv s e) t).cfg = s.cfg
    rw [ih, stepEv_cfg]

theorem runEv_swapReq_false (s : St) (es : List Ev)
    (hdbe : s.cfg.dbe = false) (h : s.swapReq = false) :
    (runEv s es).swapReq = false := by
  induction es generalizing s with
  | nil => exact h
  | cons e t ih =>
    show (runEv (stepEv s e) t).swapReq = false
    exact ih (stepEv s e) (by rw [stepEv_cfg]; exact hdbe) (stepEv_swapReq_false s e hdbe h)

/-- Claim C9: with double buffering disabled, every reachable state has
swap_requested = false, and calling swapBuffers() in any such state is a
no-op: it returns the state completely unchanged. -/
theorem C9_swap_noop_single_buffer (x y d : Nat) (junk : Buf) (es : List Ev) :
    swapBuffersOp (runEv (construct x y d false junk) es) =
      runEv (construct x y d false junk) es ∧
    (runEv (construct x y d false junk) es).swapReq = false := by
  have hdbe : (construct x y d false junk).cfg.dbe = false := rfl
  have h0 : (construct x y d false junk).swapReq = false := rfl
  have hreq := runEv_swapReq_false (construct x y d false junk) es hdbe h0
  refine ⟨?_, hreq⟩
  have hdbe2 : (runEv (construct x y d false junk) es).cfg.dbe = false := by
    rw [runEv_cfg]; exact hdbe
  rw [swapBuffersOp, if_neg (by simp [hdbe2])]
  cases hs : runEv (construct x y d false junk) es with
  | mk cfg mem frontOff backOff swapReq resyncFlag row plane =>
    rw [hs] at hreq
    simp_all

end RGB

namespace RGB

/-! ### Bit-level lemmas about the two byte encoders -/

theorem testBit_toNat_shiftLeft (b : Bool) (k j : Nat) (h : j ≠ k) :
    (b.toNat <<< k).testBit j = false := by
  rw [Nat.testBit_shiftLeft]
  by_cases hk : k ≤ j
  · have h1 : 1 ≤ j - k := by omega
    have hlt : b.toNat < 2 ^ (j - k) := by
      calc b.toNat < 2 ^ 1 := by cases b <;> decide
      _ ≤ 2 ^ (j - k) := Nat.pow_le_pow_right (by omega) h1
    rw [Nat.testBit_eq_false_of_lt hlt, Bool.and_false]
  · have : decide (j ≥ k) = false := by simp [ge_iff_le]; omega
    rw [this, Bool.false_and]

theorem testBit_toNat_shiftLeft_self (b : Bool) (k : Nat) :
    (b.toNat <<< k).testBit k = b := by
  rw [Nat.testBit_shiftLeft]
  cases b <;> simp

theorem testBit_and_mask (old mask j : Nat) (h : mask.testBit j = true) :
    (old &&& mask).testBit j = old.testBit j := by
  rw [Nat.testBit_land, h, Bool.and_true]

theorem testBit_and_mask_false (old mask j : Nat) (h : mask.testBit j = false) :
    (old &&& mask).testBit j = false := by
  rw [Nat.testBit_land, h, Bool.and_false]

theorem encUpper_testBit_keep (old c rb gb bb j : Nat)
    (hm : Nat.testBit 0xC7 j = true) (h5 : j ≠ 5) (h4 : j ≠ 4) (h3 : j ≠ 3) :
    (encUpper old c rb gb bb).testBit j = old.testBit j := by
  rw [encUpper, bitv_eq_toNat, bitv_eq_toNat, bitv_eq_toNat,
    Nat.testBit_lor, Nat.testBit_lor, Nat.testBit_lor,
    testBit_and_mask _ _ _ hm,
    testBit_toNat_shiftLeft _ _ _ h5, testBit_toNat_shiftLeft _ _ _ h4,
    testBit_toNat_shiftLeft _ _ _ h3]
  simp

theorem encLower_testBit_keep (old c rb gb bb j : Nat)
    (hm : Nat.testBit 0xF8 j = true) (h2 : j ≠ 2) (h1 : j ≠ 1) (h0 : j ≠ 0) :
    (encLower old c rb gb bb).testBit j = old.testBit j := by
  rw [encLower, bitv_eq_toNat, bitv_eq_toNat, bitv_eq_toNat,
    Nat.testBit_lor, Nat.testBit_lor, Nat.testBit_lor,
    testBit_and_mask _ _ _ hm,
    testBit_toNat_shiftLeft _ _ _ h2, testBit_toNat_shiftLeft _ _ _ h1,
    testBit_toNat_shiftLeft _ _ _ h0]
  simp

theorem encUpper_testBit_red (old c rb gb bb : Nat) :
    (encUpper old c rb gb bb).testBit 5 = c.testBit rb := by
  rw [encUpper, bitv_eq_toNat, bitv_eq_toNat, bitv_eq_toNat,
    Nat.testBit_lor, Nat.testBit_lor, Nat.testBit_lor,
    testBit_and_mask_false _ _ _ (by decide),
    testBit_toNat_shiftLeft_self,
    testBit_toNat_shiftLeft _ _ _ (by decide), testBit_toNat_shiftLeft _ _ _ (by decide)]
  simp

theorem encUpper_testBit_green (old c rb gb bb : Nat) :
    (encUpper old c rb gb bb).testBit 4 = c.testBit gb := by
  rw [encUpper, bitv_eq_toNat, bitv_eq_toNat, bitv_eq_toNat,
    Nat.testBit_lor, Nat.testBit_lor, Nat.testBit_lor,
    testBit_and_mask_false _ _ _ (by decide),
    testBit_toNat_shiftLeft_self,
    testBit_toNat_shiftLeft _ _ _ (by decide), testBit_toNat_shiftLeft _ _ _ (by decide)]
  simp

theorem encUpper_testBit_blue (old c rb gb bb : Nat) :
    (encUpper old c rb gb bb).testBit 3 = c.testBit bb := by
  rw [encUpper, bitv_eq_toNat, bitv_eq_toNat, bitv_eq_toNat,
    Nat.testBit_lor, Nat.testBit_lor, Nat.testBit_lor,
    testBit_and_mask_false _ _ _ (by decide),
    testBit_toNat_shiftLeft_self,
    testBit_toNat_shiftLeft _ _ _ (by decide), testBit_toNat_shiftLeft _ _ _ (by decide)]
  simp

theorem encLower_testBit_red (old c rb gb bb : Nat) :
    (encLower old c rb gb bb).testBit 2 = c.testBit rb := by
  rw [encLower, bitv_eq_toNat, bitv_eq_toNat, bitv_eq_toNat,
    Nat.testBit_lor, Nat.testBit_lor, Nat.testBit_lor,
    testBit_and_mask_false _ _ _ (by decide),
    testBit_toNat_shiftLeft_self,
    testBit_toNat_shiftLeft _ _ _ (by decide), testBit_toNat_shiftLeft _ _ _ (by decide)]
  simp

theorem encLower_testBit_green (old c rb gb bb : Nat) :
    (encLower old c rb gb bb).testBit 1 = c.testBit gb := by
  rw [encLower, bitv_eq_toNat, bitv_eq_toNat, bitv_eq_toNat,
    Nat.testBit_lor, Nat.testBit_lor, Nat.testBit_lor,
    testBit_and_mask_false _ _ _ (by decide),
    testBit_toNat_shiftLeft_self,
    testBit_toNat_shiftLeft _ _ _ (by decide), testBit_toNat_shiftLeft _ _ _ (by decide)]
  simp

theorem encLower_testBit_blue (old c rb gb bb : Nat) :
    (encLower old c rb gb bb).testBit 0 = c.testBit bb := by
  rw [encLower, bitv_eq_toNat, bitv_eq_toNat, bitv_eq_toNat,
    Nat.testBit_lor, Nat.testBit_lor, Nat.testBit_lor,
    testBit_and_mask_false _ _ _ (by decide),
    testBit_toNat_shiftLeft_self,
    testBit_toNat_shiftLeft _ _ _ (by decide), testBit_toNat_shiftLeft _ _ _ (by decide)]
  simp

end RGB

namespace RGB

/-! ### Pointwise bit preservation through the plane-write chains -/

theorem drawWriteU_testBit_keep (m : Buf) (ad c rb gb bb a j : Nat)
    (hm : Nat.testBit 0xC7 j = true) (h5 : j ≠ 5) (h4 : j ≠ 4) (h3 : j ≠ 3) :
    (drawWriteU m ad c rb gb bb a).testBit j = (m a).testBit j := by
  rw [drawWriteU, writeByte]
  by_cases h : a = ad
  · rw [if_pos h, encUpper_testBit_keep _ _ _ _ _ _ hm h5 h4 h3, h]
  · rw [if_neg h]

theorem drawWriteL_testBit_keep (m : Buf) (ad c rb gb bb a j : Nat)
    (hm : Nat.testBit 0xF8 j = true) (h2 : j ≠ 2) (h1 : j ≠ 1) (h0 : j ≠ 0) :
    (drawWriteL m ad c rb gb bb a).testBit j = (m a).testBit j := by
  rw [drawWriteL, writeByte]
  by_cases h : a = ad
  · rw [if_pos h, encLower_testBit_keep _ _ _ _ _ _ hm h2 h1 h0, h]
  · rw [if_neg h]

theorem drawHalfU_testBit_keep (m : Buf) (depth b ps ofs c a j : Nat)
    (hm : Nat.testBit 0xC7 j = true) (h5 : j ≠ 5) (h4 : j ≠ 4) (h3 : j ≠ 3) :
    (drawHalfU m depth b ps ofs c a).testBit j = (m a).testBit j := by
  simp only [drawHalfU]
  split_ifs <;>
    simp only [drawWriteU_testBit_keep _ _ _ _ _ _ _ _ hm h5 h4 h3]

theorem drawHalfL_testBit_keep (m : Buf) (depth b ps ofs c a j : Nat)
    (hm : Nat.testBit 0xF8 j = true) (h2 : j ≠ 2) (h1 : j ≠ 1) (h0 : j ≠ 0) :
    (drawHalfL m depth b ps ofs c a).testBit j = (m a).testBit j := by
  simp only [drawHalfL]
  split_ifs <;>
    simp only [drawWriteL_testBit_keep _ _ _ _ _ _ _ _ hm h2 h1 h0]

/-- drawPixel never changes bit 6 or bit 7 of any byte of the memory. -/
theorem drawPixel_testBit_67 (s : St) (x y : Int) (c : Nat) (a j : Nat)
    (hj : j = 6 ∨ j = 7) :
    ((drawPixel s x y c).mem a).testBit j = (s.mem a).testBit j := by
  simp only [drawPixel]
  split_ifs
  · rcases hj with rfl | rfl
    · exact drawHalfU_testBit_keep _ _ _ _ _ _ _ _ (by decide) (by decide) (by decide) (by decide)
    · exact drawHalfU_testBit_keep _ _ _ _ _ _ _ _ (by decide) (by decide) (by decide) (by decide)
  · rcases hj with rfl | rfl
    · exact drawHalfL_testBit_keep _ _ _ _ _ _ _ _ (by decide) (by decide) (by decide) (by decide)
    · exact drawHalfL_testBit_keep _ _ _ _ _ _ _ _ (by decide) (by decide) (by decide) (by decide)
  · rfl

end RGB

namespace RGB

/-- drawPixel at in-bounds natural coordinates, reduced to the half
writes. -/
theorem drawPixel_mem_inb (s : St) (x y : Nat) (c : Nat)
    (hx : x < s.cfg.width) (hy : y < s.cfg.height) :
    (drawPixel s (x : Int) (y : Int) c).mem =
      if pixY y < 16 then
        drawHalfU s.mem s.cfg.depth s.backOff s.cfg.plane_size
          (pixY y * s.cfg.row_size + pixAddrX s.cfg x y) c
      else
        drawHalfL s.mem s.cfg.depth s.backOff s.cfg.plane_size
          ((pixY y - 16) * s.cfg.row_size + pixAddrX s.cfg x y) c := by
  have hcond : (0:Int) ≤ (y : Int) ∧ (0:Int) ≤ (x : Int) ∧
      (y : Int) < (s.cfg.height : Int) ∧ (x : Int) < (s.cfg.width : Int) :=
    ⟨Int.natCast_nonneg y, Int.natCast_nonneg x,
     by exact_mod_cast hy, by exact_mod_cast hx⟩
  simp only [drawPixel, if_pos hcond, Int.toNat_natCast]
  split_ifs <;> rfl

/-- Claim C10: an in-bounds drawPixel that targets the upper half of a
byte (color bits 3-5) leaves bits 0-2 of every byte - in particular the
co-resident lower-half pixel - unchanged in every plane, and one that
targets the lower half (bits 0-2) leaves bits 3-5 of every byte
unchanged in every plane. -/
theorem C10_half_isolation (s : St) (x y c : Nat)
    (hx : x < s.cfg.width) (hy : y < s.cfg.height) :
    (pixY y < 16 →
      ∀ a j, j ≤ 2 →
        ((drawPixel s (x : Int) (y : Int) c).mem a).testBit j = (s.mem a).testBit j) ∧
    (16 ≤ pixY y →
      ∀ a j, 3 ≤ j → j ≤ 5 →
        ((drawPixel s (x : Int) (y : Int) c).mem a).testBit j = (s.mem a).testBit j) := by
  rw [drawPixel_mem_inb s x y c hx hy]
  constructor
  · intro hu a j hj
    rw [if_pos hu]
    interval_cases j <;>
      exact drawHalfU_testBit_keep _ _ _ _ _ _ _ _ (by decide) (by decide) (by decide) (by decide)
  · intro hl a j hj3 hj5
    rw [if_neg (by omega)]
    interval_cases j <;>
      exact drawHalfL_testBit_keep _ _ _ _ _ _ _ _ (by decide) (by decide) (by decide) (by decide)

/-- Witness for C10_half_isolation: pixel (0, 0) of a 32x32 depth-3
panel lands in the upper half; bit 0 of byte 0 is unchanged. -/
theorem C10_half_isolation_witness :
    (0 : Nat) < (construct 32 32 3 false (fun _ => 0)).cfg.width ∧
    (0 : Nat) < (construct 32 32 3 false (fun _ => 0)).cfg.height ∧
    pixY 0 < 16 ∧ (0 : Nat) ≤ 2 ∧
    ((drawPixel (construct 32 32 3 false (fun _ => 0)) ((0 : Nat) : Int) ((0 : Nat) : Int)
        0xFFFF).mem 0).testBit 0 =
      ((construct 32 32 3 false (fun _ => 0)).mem 0).testBit 0 :=
  ⟨by decide, by decide, by decide, by decide,
   (C10_half_isolation (construct 32 32 3 false (fun _ => 0)) 0 0 0xFFFF
      (by decide) (by decide)).1 (by decide) 0 0 (by decide)⟩

end RGB

namespace RGB

/-! ### Reading back the bytes written by drawPixel -/

theorem drawWriteU_get_self (m : Buf) (a c rb gb bb : Nat) :
    drawWriteU m a c rb gb bb a = encUpper (m a) c rb gb bb :=
  writeByte_self ..

theorem drawWriteU_get_ne (m : Buf) (a c rb gb bb a2 : Nat) (h : a2 ≠ a) :
    drawWriteU m a c rb gb bb a2 = m a2 :=
  writeByte_ne _ _ _ _ h

theorem drawWriteL_get_self (m : Buf) (a c rb gb bb : Nat) :
    drawWriteL m a c rb gb bb a = encLower (m a) c rb gb bb :=
  writeByte_self ..

theorem drawWriteL_get_ne (m : Buf) (a c rb gb bb a2 : Nat) (h : a2 ≠ a) :
    drawWriteL m a c rb gb bb a2 = m a2 :=
  writeByte_ne _ _ _ _ h

theorem drawWriteU_get (m : Buf) (a c rb gb bb a2 : Nat) :
    drawWriteU m a c rb gb bb a2 =
      if a2 = a then encUpper (m a) c rb gb bb else m a2 := rfl

theorem drawWriteL_get (m : Buf) (a c rb gb bb a2 : Nat) :
    drawWriteL m a c rb gb bb a2 =
      if a2 = a then encLower (m a) c rb gb bb else m a2 := rfl

theorem drawHalfU_get (m : Buf) (depth b ps ofs c p : Nat)
    (hp : p < depth) (hd : depth ≤ 4) (hofs : ofs < ps) :
    drawHalfU m depth b ps ofs c (b + p * ps + ofs) =
      encUpper (m (b + p * ps + ofs)) c (15 - p) (10 - p) (4 - p) := by
  interval_cases depth <;> interval_cases p <;>
    simp only [drawHalfU] <;> norm_num <;>
    simp only [drawWriteU_get] <;> split_ifs <;> first | rfl | omega

theorem drawHalfL_get (m : Buf) (depth b ps ofs c p : Nat)
    (hp : p < depth) (hd : depth ≤ 4) (hofs : ofs < ps) :
    drawHalfL m depth b ps ofs c (b + p * ps + ofs) =
      encLower (m (b + p * ps + ofs)) c (15 - p) (10 - p) (4 - p) := by
  interval_cases depth <;> interval_cases p <;>
    simp only [drawHalfL] <;> norm_num <;>
    simp only [drawWriteL_get] <;> split_ifs <;> first | rfl | omega

end RGB

namespace RGB

/-! ### The decoder arithmetic -/

theorem decodeBits_congr (f g : Nat → Bool) (d : Nat) (h : ∀ p, p < d → f p = g p) :
    decodeBits f d = decodeBits g d := by
  induction d with
  | zero => rfl
  | succ k ih =>
    rw [decodeBits, decodeBits, ih (fun p hp => h p (by omega)), h k (by omega)]

theorem decodeBits_topBits (c hi : Nat) :
    ∀ d, d ≤ hi + 1 →
      decodeBits (fun p => c.testBit (hi - p)) d = (c >>> (hi + 1 - d)) % 2 ^ d := by
  intro d
  induction d with
  | zero => intro _; simp [decodeBits, Nat.mod_one]
  | succ k ih =>
    intro hk
    rw [decodeBits, ih (by omega)]
    have e1 : hi + 1 - k = (hi - k) + 1 := by omega
    have e2 : c >>> ((hi - k) + 1) = (c >>> (hi - k)) >>> 1 := by
      rw [Nat.shiftRight_add]
    have e3 : (c.testBit (hi - k)).toNat = (c >>> (hi - k)) % 2 := by
      rw [Nat.toNat_testBit, Nat.shiftRight_eq_div_pow]
    have e4 : (c >>> (hi - k)) >>> 1 = (c >>> (hi - k)) / 2 := by
      rw [Nat.shiftRight_eq_div_pow, pow_one]
    have e5 : hi + 1 - (k + 1) = hi - k := by omega
    rw [e1, e2, e3, e4, e5, pow_succ, mul_comm (2 ^ k) 2, Nat.mod_mul]
    ring

/-! ### Geometry bounds used by the round-trip theorem -/

theorem pixY_lt_32 (y : Nat) : pixY y < 32 := by
  rw [pixY]
  split_ifs
  · exact Nat.mod_lt y (by omega)
  · omega

theorem pixAddrX_lt_row_size (cfg : Cfg) (x y : Nat)
    (hh : cfg.height = 32 * (cfg.height >>> 5))
    (hw : 0 < cfg.width) (hy : y < cfg.height) :
    pixAddrX cfg x y < cfg.row_size := by
  have h32 : cfg.height >>> 5 = cfg.height / 32 := by
    rw [Nat.shiftRight_eq_div_pow]
  have hy32 : y >>> 5 = y / 32 := by
    rw [Nat.shiftRight_eq_div_pow]
  have hpr : y / 32 < cfg.height / 32 := by omega
  have hpr1 : y / 32 + 1 ≤ cfg.height / 32 := hpr
  have hrs : cfg.row_size = cfg.width * (cfg.height / 32) := by
    rw [Cfg.row_size, h32]
  have hxm : x % cfg.width < cfg.width := Nat.mod_lt x hw
  have key : ∀ t, t < cfg.width → t + (y / 32) * cfg.width < cfg.row_size := by
    intro t ht
    calc t + (y / 32) * cfg.width < cfg.width + (y / 32) * cfg.width := by omega
    _ = (y / 32 + 1) * cfg.width := by ring
    _ ≤ (cfg.height / 32) * cfg.width := Nat.mul_le_mul_right _ hpr1
    _ = cfg.row_size := by rw [hrs]; ring
  rw [pixAddrX, hy32]
  split_ifs
  · exact key _ hxm
  · exact key _ (by omega)

theorem plane_size_eq (cfg : Cfg) (hh : cfg.height = 32 * (cfg.height >>> 5)) :
    cfg.plane_size = 16 * cfg.row_size := by
  have h32 : cfg.height >>> 5 = cfg.height / 32 := by
    rw [Nat.shiftRight_eq_div_pow]
  have h2 : cfg.height >>> 1 = cfg.height / 2 := by
    rw [Nat.shiftRight_eq_div_pow, pow_one]
  have hh16 : cfg.height / 2 = 16 * (cfg.height / 32) := by omega
  rw [Cfg.plane_size, Cfg.row_size, h2, h32, hh16]
  ring

theorem upper_ofs_lt (cfg : Cfg) (x y : Nat)
    (hh : cfg.height = 32 * (cfg.height >>> 5))
    (hw : 0 < cfg.width) (hy : y < cfg.height) (hu : pixY y < 16) :
    pixY y * cfg.row_size + pixAddrX cfg x y < cfg.plane_size := by
  have hxa := pixAddrX_lt_row_size cfg x y hh hw hy
  have h15 : pixY y ≤ 15 := by omega
  calc pixY y * cfg.row_size + pixAddrX cfg x y
      < pixY y * cfg.row_size + cfg.row_size := by omega
  _ = (pixY y + 1) * cfg.row_size := by ring
  _ ≤ 16 * cfg.row_size := Nat.mul_le_mul_right _ (by omega)
  _ = cfg.plane_size := (plane_size_eq cfg hh).symm

theorem lower_ofs_lt (cfg : Cfg) (x y : Nat)
    (hh : cfg.height = 32 * (cfg.height >>> 5))
    (hw : 0 < cfg.width) (hy : y < cfg.height) :
    (pixY y - 16) * cfg.row_size + pixAddrX cfg x y < cfg.plane_size := by
  have hxa := pixAddrX_lt_row_size cfg x y hh hw hy
  have h15 : pixY y - 16 ≤ 15 := by
    have := pixY_lt_32 y
    omega
  calc (pixY y - 16) * cfg.row_size + pixAddrX cfg x y
      < (pixY y - 16) * cfg.row_size + cfg.row_size := by omega
  _ = (pixY y - 16 + 1) * cfg.row_size := by ring
  _ ≤ 16 * cfg.row_size := Nat.mul_le_mul_right _ (by omega)
  _ = cfg.plane_size := (plane_size_eq cfg hh).symm

end RGB

namespace RGB

/-- Claim C2: for every in-bounds (x, y) and every 5-6-5 color c, after
drawPixel(x, y, c) the bit stored in plane p at the pixel's byte
position is, per channel, bit 15-p of c for red, bit 10-p for green and
bit 4-p for blue; hence the reference decoder reading (x, y) back
returns exactly the top depth bits of each channel. -/
theorem C2_color_roundtrip (s : St) (x y c : Nat)
    (hh : s.cfg.height = 32 * (s.cfg.height >>> 5))
    (hw : 0 < s.cfg.width)
    (hd1 : 1 ≤ s.cfg.depth) (hd4 : s.cfg.depth ≤ 4)
    (hx : x < s.cfg.width) (hy : y < s.cfg.height) :
    (∀ p, p < s.cfg.depth →
        chanBit s.cfg (drawPixel s (x : Int) (y : Int) c).mem s.backOff x y p 2 =
          c.testBit (15 - p) ∧
        chanBit s.cfg (drawPixel s (x : Int) (y : Int) c).mem s.backOff x y p 1 =
          c.testBit (10 - p) ∧
        chanBit s.cfg (drawPixel s (x : Int) (y : Int) c).mem s.backOff x y p 0 =
          c.testBit (4 - p)) ∧
    readPixel s.cfg (drawPixel s (x : Int) (y : Int) c).mem s.backOff x y =
      ((c >>> (16 - s.cfg.depth)) % 2 ^ s.cfg.depth,
       (c >>> (11 - s.cfg.depth)) % 2 ^ s.cfg.depth,
       (c >>> (5 - s.cfg.depth)) % 2 ^ s.cfg.depth) := by
  have hmem := drawPixel_mem_inb s x y c hx hy
  by_cases hu : pixY y < 16
  · rw [if_pos hu] at hmem
    have hofs := upper_ofs_lt s.cfg x y hh hw hy hu
    have hbits : ∀ p, p < s.cfg.depth →
        chanBit s.cfg (drawPixel s (x : Int) (y : Int) c).mem s.backOff x y p 2 =
          c.testBit (15 - p) ∧
        chanBit s.cfg (drawPixel s (x : Int) (y : Int) c).mem s.backOff x y p 1 =
          c.testBit (10 - p) ∧
        chanBit s.cfg (drawPixel s (x : Int) (y : Int) c).mem s.backOff x y p 0 =
          c.testBit (4 - p) := by
      intro p hp
      simp only [chanBit, planeByteAddr, if_pos hu, hmem,
        drawHalfU_get s.mem s.cfg.depth s.backOff s.cfg.plane_size _ c p hp hd4 hofs]
      refine ⟨?_, ?_, ?_⟩
      · simpa using encUpper_testBit_red
          (s.mem (s.backOff + p * s.cfg.plane_size +
            (pixY y * s.cfg.row_size + pixAddrX s.cfg x y))) c (15 - p) (10 - p) (4 - p)
      · simpa using encUpper_testBit_green
          (s.mem (s.backOff + p * s.cfg.plane_size +
            (pixY y * s.cfg.row_size + pixAddrX s.cfg x y))) c (15 - p) (10 - p) (4 - p)
      · simpa using encUpper_testBit_blue
          (s.mem (s.backOff + p * s.cfg.plane_size +
            (pixY y * s.cfg.row_size + pixAddrX s.cfg x y))) c (15 - p) (10 - p) (4 - p)
    refine ⟨hbits, ?_⟩
    rw [readPixel]
    have hr := decodeBits_congr
      (fun p => chanBit s.cfg (drawPixel s (x : Int) (y : Int) c).mem s.backOff x y p 2)
      (fun p => c.testBit (15 - p)) s.cfg.depth (fun p hp => (hbits p hp).1)
    have hg := decodeBits_congr
      (fun p => chanBit s.cfg (drawPixel s (x : Int) (y : Int) c).mem s.backOff x y p 1)
      (fun p => c.testBit (10 - p)) s.cfg.depth (fun p hp => (hbits p hp).2.1)
    have hb := decodeBits_congr
      (fun p => chanBit s.cfg (drawPixel s (x : Int) (y : Int) c).mem s.backOff x y p 0)
      (fun p => c.testBit (4 - p)) s.cfg.depth (fun p hp => (hbits p hp).2.2)
    rw [hr, hg, hb, decodeBits_topBits c 15 s.cfg.depth (by omega),
      decodeBits_topBits c 10 s.cfg.depth (by omega),
      decodeBits_topBits c 4 s.cfg.depth (by omega)]
  · rw [if_neg hu] at hmem
    have hofs := lower_ofs_lt s.cfg x y hh hw hy
    have hbits : ∀ p, p < s.cfg.depth →
        chanBit s.cfg (drawPixel s (x : Int) (y : Int) c).mem s.backOff x y p 2 =
          c.testBit (15 - p) ∧
        chanBit s.cfg (drawPixel s (x : Int) (y : Int) c).mem s.backOff x y p 1 =
          c.testBit (10 - p) ∧
        chanBit s.cfg (drawPixel s (x : Int) (y : Int) c).mem s.backOff x y p 0 =
          c.testBit (4 - p) := by
      intro p hp
      simp only [chanBit, planeByteAddr, if_neg hu, hmem,
        drawHalfL_get s.mem s.cfg.depth s.backOff s.cfg.plane_size _ c p hp hd4 hofs]
      refine ⟨?_, ?_, ?_⟩
      · simpa using encLower_testBit_red
          (s.mem (s.backOff + p * s.cfg.plane_size +
            ((pixY y - 16) * s.cfg.row_size + pixAddrX s.cfg x y))) c (15 - p) (10 - p) (4 - p)
      · simpa using encLower_testBit_green
          (s.mem (s.backOff + p * s.cfg.plane_size +
            ((pixY y - 16) * s.cfg.row_size + pixAddrX s.cfg x y))) c (15 - p) (10 - p) (4 - p)
      · simpa using encLower_testBit_blue
          (s.mem (s.backOff + p * s.cfg.plane_size +
            ((pixY y - 16) * s.cfg.row_size + pixAddrX s.cfg x y))) c (15 - p) (10 - p) (4 - p)
    refine ⟨hbits, ?_⟩
    rw [readPixel]
    have hr := decodeBits_congr
      (fun p => chanBit s.cfg (drawPixel s (x : Int) (y : Int) c).mem s.backOff x y p 2)
      (fun p => c.testBit (15 - p)) s.cfg.depth (fun p hp => (hbits p hp).1)
    have hg := decodeBits_congr
      (fun p => chanBit s.cfg (drawPixel s (x : Int) (y : Int) c).mem s.backOff x y p 1)
      (fun p => c.testBit (10 - p)) s.cfg.depth (fun p hp => (hbits p hp).2.1)
    have hb := decodeBits_congr
      (fun p => chanBit s.cfg (drawPixel s (x : Int) (y : Int) c).mem s.backOff x y p 0)
      (fun p => c.testBit (4 - p)) s.cfg.depth (fun p hp => (hbits p hp).2.2)
    rw [hr, hg, hb, decodeBits_topBits c 15 s.cfg.depth (by omega),
      decodeBits_topBits c 10 s.cfg.depth (by omega),
      decodeBits_topBits c 4 s.cfg.depth (by omega)]

end RGB

namespace RGB

set_option maxRecDepth 10000

/-- Concrete panel used by the round-trip witness. -/
def c2s : St := construct 32 32 3 false (fun _ => 0)

/-- Witness for C2_color_roundtrip: pixel (1, 20), color 0xABCD on a
32x32 depth-3 panel. -/
theorem C2_color_roundtrip_witness :
    (c2s.cfg.height = 32 * (c2s.cfg.height >>> 5) ∧ 0 < c2s.cfg.width ∧
     1 ≤ c2s.cfg.depth ∧ c2s.cfg.depth ≤ 4 ∧ 1 < c2s.cfg.width ∧ 20 < c2s.cfg.height) ∧
    ((∀ p, p < c2s.cfg.depth →
        chanBit c2s.cfg (drawPixel c2s ((1 : Nat) : Int) ((20 : Nat) : Int) 0xABCD).mem
            c2s.backOff 1 20 p 2 = Nat.testBit 0xABCD (15 - p) ∧
        chanBit c2s.cfg (drawPixel c2s ((1 : Nat) : Int) ((20 : Nat) : Int) 0xABCD).mem
            c2s.backOff 1 20 p 1 = Nat.testBit 0xABCD (10 - p) ∧
        chanBit c2s.cfg (drawPixel c2s ((1 : Nat) : Int) ((20 : Nat) : Int) 0xABCD).mem
            c2s.backOff 1 20 p 0 = Nat.testBit 0xABCD (4 - p)) ∧
     readPixel c2s.cfg (drawPixel c2s ((1 : Nat) : Int) ((20 : Nat) : Int) 0xABCD).mem
         c2s.backOff 1 20 =
       ((0xABCD >>> (16 - c2s.cfg.depth)) % 2 ^ c2s.cfg.depth,
        (0xABCD >>> (11 - c2s.cfg.depth)) % 2 ^ c2s.cfg.depth,
        (0xABCD >>> (5 - c2s.cfg.depth)) % 2 ^ c2s.cfg.depth)) :=
  ⟨⟨by decide, by decide, by decide, by decide, by decide, by decide⟩,
   C2_color_roundtrip c2s 1 20 0xABCD (by decide) (by decide) (by decide) (by decide)
     (by decide) (by decide)⟩

end RGB

namespace RGB

/-! ### Generic lemmas about the fill and stamp folds -/

theorem foldl_memset_out (off_of v_of : Nat → Nat) (len : Nat) :
    ∀ (L : List Nat) (m : Buf) (a : Nat),
      (∀ p, p ∈ L → ¬(off_of p ≤ a ∧ a < off_of p + len)) →
      (L.foldl (fun mm p => memset mm (off_of p) (v_of p) len) m) a = m a := by
  intro L
  induction L with
  | nil => intro m a _; rfl
  | cons q t ih =>
    intro m a h
    rw [List.foldl_cons, ih _ _ (fun p hp => h p (List.mem_cons_of_mem q hp))]
    simp only [memset]
    rw [if_neg (h q (List.mem_cons_self q t))]

theorem foldl_memset_in (off_of v_of : Nat → Nat) (len B : Nat)
    (hv : ∀ p, v_of p < B) :
    ∀ (L : List Nat) (m : Buf) (a : Nat),
      (∃ p, p ∈ L ∧ off_of p ≤ a ∧ a < off_of p + len) →
      (L.foldl (fun mm p => memset mm (off_of p) (v_of p) len) m) a < B := by
  intro L
  induction L with
  | nil =>
    rintro m a ⟨p, hp, _⟩
    exact absurd hp (List.not_mem_nil p)
  | cons q t ih =>
    rintro m a ⟨p, hp, hin⟩
    by_cases ht : ∃ r, r ∈ t ∧ off_of r ≤ a ∧ a < off_of r + len
    · exact ih _ _ ht
    · have hq : off_of q ≤ a ∧ a < off_of q + len := by
        rcases List.mem_cons.mp hp with rfl | hpt
        · exact hin
        · exact absurd ⟨p, hpt, hin⟩ ht
      rw [List.foldl_cons,
        foldl_memset_out off_of v_of len t _ a (fun r hr hc => ht ⟨r, hr, hc⟩)]
      simp only [memset]
      rw [if_pos hq]
      exact hv q

theorem foldl_stamp_keep (addr_of : Nat → Nat) (w : Nat) :
    ∀ (L : List Nat) (m : Buf) (a : Nat),
      (∀ i, i ∈ L → a ≠ addr_of i) →
      (L.foldl (fun mm i => writeByte mm (addr_of i) (mm (addr_of i) ||| w)) m) a = m a := by
  intro L
  induction L with
  | nil => intro m a _; rfl
  | cons q t ih =>
    intro m a h
    rw [List.foldl_cons, ih _ _ (fun i hi => h i (List.mem_cons_of_mem q hi)),
      writeByte_ne _ _ _ _ (h q (List.mem_cons_self q t))]

theorem one_shiftLeft_testBit_ne (b j : Nat) (hj : j ≠ b) :
    ((1 : Nat) <<< b).testBit j = false := by
  have h := testBit_toNat_shiftLeft true b j hj
  rw [show Bool.toNat true = 1 from rfl] at h
  exact h

theorem one_shiftLeft_testBit_self (b : Nat) : ((1 : Nat) <<< b).testBit b = true := by
  have h := testBit_toNat_shiftLeft_self true b
  rw [show Bool.toNat true = 1 from rfl] at h
  exact h

theorem foldl_stamp_testBit_ne (addr_of : Nat → Nat) (b j : Nat) (hj : j ≠ b) :
    ∀ (L : List Nat) (m : Buf) (a : Nat),
      ((L.foldl (fun mm i => writeByte mm (addr_of i) (mm (addr_of i) ||| (1 <<< b))) m) a).testBit j
        = (m a).testBit j := by
  intro L
  induction L with
  | nil => intro m a; rfl
  | cons q t ih =>
    intro m a
    rw [List.foldl_cons, ih]
    by_cases h : a = addr_of q
    · rw [h, writeByte_self, Nat.testBit_lor, one_shiftLeft_testBit_ne b j hj, Bool.or_false]
    · rw [writeByte_ne _ _ _ _ h]

theorem foldl_stamp_testBit_mono (addr_of : Nat → Nat) (b : Nat) :
    ∀ (L : List Nat) (m : Buf) (a : Nat),
      (m a).testBit b = true →
      ((L.foldl (fun mm i => writeByte mm (addr_of i) (mm (addr_of i) ||| (1 <<< b))) m) a).testBit b
        = true := by
  intro L
  induction L with
  | nil => intro m a h; exact h
  | cons q t ih =>
    intro m a h
    rw [List.foldl_cons]
    apply ih
    by_cases hq : a = addr_of q
    · rw [hq, writeByte_self, Nat.testBit_lor]
      rw [hq] at h
      rw [h, Bool.true_or]
    · rw [writeByte_ne _ _ _ _ hq]
      exact h

theorem foldl_stamp_testBit_set (addr_of : Nat → Nat) (b : Nat) :
    ∀ (L : List Nat) (m : Buf) (a : Nat),
      (∃ i, i ∈ L ∧ a = addr_of i) →
      ((L.foldl (fun mm i => writeByte mm (addr_of i) (mm (addr_of i) ||| (1 <<< b))) m) a).testBit b
        = true := by
  intro L
  induction L with
  | nil =>
    rintro m a ⟨i, hi, _⟩
    exact absurd hi (List.not_mem_nil i)
  | cons q t ih =>
    rintro m a ⟨i, hi, ha⟩
    rw [List.foldl_cons]
    by_cases hq : a = addr_of q
    · apply foldl_stamp_testBit_mono
      rw [hq, writeByte_self, Nat.testBit_lor, one_shiftLeft_testBit_self, Bool.or_true]
    · rcases List.mem_cons.mp hi with rfl | hit
      · exact absurd ha hq
      · exact ih _ _ ⟨i, hit, ha⟩

theorem fillColor_lt_64 (c p : Nat) : fillColor c p < 64 := by
  have hb : ∀ i k, k ≤ 2 → bitv c i <<< k < 8 := by
    intro i k hk
    rw [bitv_eq_toNat, Nat.shiftLeft_eq]
    have ht : (c.testBit i).toNat ≤ 1 := by cases c.testBit i <;> decide
    interval_cases k <;> omega
  have h1 : bitv c (12 + p) <<< 2 < 2 ^ 3 := hb _ 2 (by omega)
  have h2 : bitv c (7 + p) <<< 1 < 2 ^ 3 := hb _ 1 (by omega)
  have h3 : bitv c (1 + p) < 2 ^ 3 := by
    have := hb (1 + p) 0 (by omega)
    simpa using this
  have ht : (bitv c (12 + p) <<< 2) ||| (bitv c (7 + p) <<< 1) ||| bitv c (1 + p) < 2 ^ 3 :=
    Nat.or_lt_two_pow (Nat.or_lt_two_pow h1 h2) h3
  rw [fillColor]
  have ht8 : (bitv c (12 + p) <<< 2) ||| (bitv c (7 + p) <<< 1) ||| bitv c (1 + p) < 8 := ht
  have h8 : ((bitv c (12 + p) <<< 2) ||| (bitv c (7 + p) <<< 1) ||| bitv c (1 + p)) <<< 3 < 2 ^ 6 := by
    show _ < 64
    rw [Nat.shiftLeft_eq]
    omega
  have h64 : (bitv c (12 + p) <<< 2) ||| (bitv c (7 + p) <<< 1) ||| bitv c (1 + p) < 2 ^ 6 := by
    show _ < 64
    omega
  have final : ((bitv c (12 + p) <<< 2) ||| (bitv c (7 + p) <<< 1) ||| bitv c (1 + p)) |||
      (((bitv c (12 + p) <<< 2) ||| (bitv c (7 + p) <<< 1) ||| bitv c (1 + p)) <<< 3) < 2 ^ 6 :=
    Nat.or_lt_two_pow h64 h8
  exact final

end RGB

namespace RGB

/-! ### What fillScreen does to memory -/

theorem fillScreen_mem_outside (s : St) (c : Nat) (a : Nat)
    (hrs : 0 < s.cfg.row_size) (hps : s.cfg.plane_size = 16 * s.cfg.row_size)
    (ha : a < s.backOff ∨ s.backOff + s.cfg.depth * s.cfg.plane_size ≤ a) :
    (fillScreen s c).mem a = s.mem a := by
  have h2 : s.cfg.depth * s.cfg.plane_size = s.cfg.row_size * (s.cfg.depth * 16) := by
    rw [hps]; ring
  have hkeep : ∀ i, i ∈ List.range (s.cfg.depth * 16) →
      a ≠ s.backOff + s.cfg.row_size * (i + 1) - 1 := by
    intro i hi
    have hi16 : i + 1 ≤ s.cfg.depth * 16 := by
      have := List.mem_range.mp hi
      omega
    have h1 : s.cfg.row_size * (i + 1) ≤ s.cfg.row_size * (s.cfg.depth * 16) :=
      Nat.mul_le_mul_left _ hi16
    have h3 : s.cfg.row_size * 1 ≤ s.cfg.row_size * (i + 1) :=
      Nat.mul_le_mul_left _ (by omega)
    omega
  have hout : ∀ p, p ∈ List.range s.cfg.depth →
      ¬(s.backOff + (s.cfg.depth - p - 1) * s.cfg.plane_size ≤ a ∧
        a < s.backOff + (s.cfg.depth - p - 1) * s.cfg.plane_size +
          s.cfg.width * (s.cfg.height >>> 1)) := by
    intro p hp
    have hpd : p < s.cfg.depth := List.mem_range.mp hp
    have hlen : s.cfg.width * (s.cfg.height >>> 1) = s.cfg.plane_size := rfl
    rw [hlen]
    have h1 : (s.cfg.depth - p - 1) * s.cfg.plane_size + s.cfg.plane_size ≤
        s.cfg.depth * s.cfg.plane_size := by
      have e : (s.cfg.depth - p - 1) * s.cfg.plane_size + s.cfg.plane_size =
          (s.cfg.depth - p - 1 + 1) * s.cfg.plane_size := by ring
      rw [e]
      exact Nat.mul_le_mul_right _ (by omega)
    omega
  simp only [fillScreen]
  rw [foldl_stamp_keep _ _ _ _ _ hkeep, foldl_stamp_keep _ _ _ _ _ hkeep,
    foldl_memset_out _ _ _ _ _ _ hout]

theorem fillScreen_ctrlInv (s : St) (c : Nat)
    (hrs : 0 < s.cfg.row_size) (hps : s.cfg.plane_size = 16 * s.cfg.row_size) :
    ctrlInv s.cfg (fillScreen s c).mem s.backOff := by
  constructor
  · intro k hk1 hk2
    have hk : 1 ≤ k * s.cfg.row_size := by
      calc 1 = 1 * 1 := rfl
      _ ≤ k * s.cfg.row_size := Nat.mul_le_mul hk1 hrs
    have haddr : s.backOff + (k * s.cfg.row_size - 1) =
        s.backOff + s.cfg.row_size * ((k - 1) + 1) - 1 := by
      have e : s.cfg.row_size * ((k - 1) + 1) = k * s.cfg.row_size := by
        rw [Nat.sub_add_cancel hk1]; ring
      rw [e]
      omega
    have hmem : ∃ i, i ∈ List.range (s.cfg.depth * 16) ∧
        s.backOff + (k * s.cfg.row_size - 1) =
          s.backOff + s.cfg.row_size * (i + 1) - 1 :=
      ⟨k - 1, List.mem_range.mpr (by omega), haddr⟩
    constructor
    · simp only [fillScreen]
      rw [foldl_stamp_testBit_ne _ 7 6 (by omega)]
      exact foldl_stamp_testBit_set _ 6 _ _ _ hmem
    · simp only [fillScreen]
      exact foldl_stamp_testBit_set _ 7 _ _ _ hmem
  · intro a ha hnc
    have hkeep : ∀ i, i ∈ List.range (s.cfg.depth * 16) →
        s.backOff + a ≠ s.backOff + s.cfg.row_size * (i + 1) - 1 := by
      intro i hi heq
      have hi16 : i < s.cfg.depth * 16 := List.mem_range.mp hi
      have hx1 : 1 ≤ (i + 1) * s.cfg.row_size := by
        calc 1 = 1 * 1 := rfl
        _ ≤ (i + 1) * s.cfg.row_size := Nat.mul_le_mul (by omega) hrs
      have e : s.cfg.row_size * (i + 1) = (i + 1) * s.cfg.row_size := by ring
      rw [e] at heq
      have e2 : s.backOff + (i + 1) * s.cfg.row_size - 1 =
          s.backOff + ((i + 1) * s.cfg.row_size - 1) := by omega
      rw [e2] at heq
      exact hnc (i + 1) (by omega) (by omega) (Nat.add_left_cancel heq)
    have hps0 : 0 < s.cfg.plane_size := by
      rw [hps]
      omega
    have hda : a < s.cfg.depth * s.cfg.plane_size := by
      have e : s.cfg.depth * s.cfg.plane_size = s.cfg.depth * 16 * s.cfg.row_size := by
        rw [hps]; ring
      rw [e]
      exact ha
    have hcov : ∃ p, p ∈ List.range s.cfg.depth ∧
        s.backOff + (s.cfg.depth - p - 1) * s.cfg.plane_size ≤ s.backOff + a ∧
        s.backOff + a < s.backOff + (s.cfg.depth - p - 1) * s.cfg.plane_size +
          s.cfg.width * (s.cfg.height >>> 1) := by
      have hlen : s.cfg.width * (s.cfg.height >>> 1) = s.cfg.plane_size := rfl
      obtain ⟨q, hq⟩ : ∃ q, a / s.cfg.plane_size = q := ⟨_, rfl⟩
      have hqd : q < s.cfg.depth := by
        rw [← hq]
        exact (Nat.div_lt_iff_lt_mul hps0).mpr hda
      have hlow : q * s.cfg.plane_size ≤ a := by
        rw [← hq]
        exact Nat.div_mul_le_self a _
      have hup : a < q * s.cfg.plane_size + s.cfg.plane_size := by
        have hmod := Nat.div_add_mod a s.cfg.plane_size
        rw [hq] at hmod
        have hm : a % s.cfg.plane_size < s.cfg.plane_size := Nat.mod_lt _ hps0
        calc a = s.cfg.plane_size * q + a % s.cfg.plane_size := hmod.symm
        _ < s.cfg.plane_size * q + s.cfg.plane_size := Nat.add_lt_add_left hm _
        _ = q * s.cfg.plane_size + s.cfg.plane_size := by ring
      have e2 : s.cfg.depth - (s.cfg.depth - 1 - q) - 1 = q := by omega
      refine ⟨s.cfg.depth - 1 - q, List.mem_range.mpr (by omega), ?_, ?_⟩
      · rw [e2]
        omega
      · rw [e2, hlen]
        omega
    have hlt : (fillScreen s c).mem (s.backOff + a) < 64 := by
      simp only [fillScreen]
      rw [foldl_stamp_keep _ _ _ _ _ hkeep, foldl_stamp_keep _ _ _ _ _ hkeep]
      exact foldl_memset_in _ _ _ 64 (fun p => fillColor_lt_64 c p) _ _ _ hcov
    constructor
    · exact Nat.testBit_eq_false_of_lt (lt_of_lt_of_le hlt (by norm_num))
    · exact Nat.testBit_eq_false_of_lt (lt_of_lt_of_le hlt (by norm_num))

end RGB

namespace RGB

/-! ### Transporting the control-bit invariant -/

theorem ctrlInv_congr67 (cfg : Cfg) (m m2 : Buf) (off : Nat)
    (h : ∀ a, (m2 a).testBit 6 = (m a).testBit 6 ∧ (m2 a).testBit 7 = (m a).testBit 7)
    (hinv : ctrlInv cfg m off) : ctrlInv cfg m2 off := by
  obtain ⟨hc, hn⟩ := hinv
  constructor
  · intro k hk1 hk2
    exact ⟨by rw [(h _).1]; exact (hc k hk1 hk2).1,
           by rw [(h _).2]; exact (hc k hk1 hk2).2⟩
  · intro a ha hnc
    exact ⟨by rw [(h _).1]; exact (hn a ha hnc).1,
           by rw [(h _).2]; exact (hn a ha hnc).2⟩

theorem ctrlInv_eqOn (cfg : Cfg) (m m2 : Buf) (off : Nat)
    (hrs : 0 < cfg.row_size)
    (h : ∀ a, a < cfg.depth * 16 * cfg.row_size → m2 (off + a) = m (off + a))
    (hinv : ctrlInv cfg m off) : ctrlInv cfg m2 off := by
  obtain ⟨hc, hn⟩ := hinv
  constructor
  · intro k hk1 hk2
    have hb : k * cfg.row_size - 1 < cfg.depth * 16 * cfg.row_size := by
      have h1 : k * cfg.row_size ≤ cfg.depth * 16 * cfg.row_size :=
        Nat.mul_le_mul_right _ hk2
      have h2 : 1 * 1 ≤ k * cfg.row_size := Nat.mul_le_mul hk1 hrs
      omega
    rw [h _ hb]
    exact hc k hk1 hk2
  · intro a ha hnc
    rw [h _ ha]
    exact hn a ha hnc

/-! ### The state invariant carrying C1 -/

/-- The front/back offsets as the constructors and the tick swap leave
them: aliased at 0, or the two disjoint halves of the allocation. -/
def offsetsOK (s : St) : Prop :=
  (s.frontOff = 0 ∧ s.backOff = 0) ∨
  (s.frontOff = 0 ∧ s.backOff = s.cfg.depth * s.cfg.plane_size) ∨
  (s.frontOff = s.cfg.depth * s.cfg.plane_size ∧ s.backOff = 0)

/-- Well-formed geometry plus the control-bit invariant in both buffers. -/
def goodSt (s : St) : Prop :=
  0 < s.cfg.row_size ∧ s.cfg.plane_size = 16 * s.cfg.row_size ∧
  ctrlInv s.cfg s.mem s.frontOff ∧ ctrlInv s.cfg s.mem s.backOff ∧ offsetsOK s

theorem goodSt_drawPixel (s : St) (x y : Int) (c : Nat) (h : goodSt s) :
    goodSt (drawPixel s x y c) := by
  obtain ⟨hrs, hps, hf, hb, ho⟩ := h
  have hbits : ∀ a, ((drawPixel s x y c).mem a).testBit 6 = (s.mem a).testBit 6 ∧
      ((drawPixel s x y c).mem a).testBit 7 = (s.mem a).testBit 7 :=
    fun a => ⟨drawPixel_testBit_67 s x y c a 6 (Or.inl rfl),
              drawPixel_testBit_67 s x y c a 7 (Or.inr rfl)⟩
  refine ⟨?_, ?_, ?_, ?_, ?_⟩
  · rw [drawPixel_cfg]; exact hrs
  · rw [drawPixel_cfg]; exact hps
  · rw [drawPixel_cfg, drawPixel_frontOff]
    exact ctrlInv_congr67 _ _ _ _ hbits hf
  · rw [drawPixel_cfg, drawPixel_backOff]
    exact ctrlInv_congr67 _ _ _ _ hbits hb
  · simp only [offsetsOK, drawPixel_cfg, drawPixel_frontOff, drawPixel_backOff]
    exact ho

theorem goodSt_fillScreen (s : St) (c : Nat) (h : goodSt s) : goodSt (fillScreen s c) := by
  obtain ⟨hrs, hps, hf, hb, ho⟩ := h
  refine ⟨hrs, hps, ?_, fillScreen_ctrlInv s c hrs hps, ho⟩
  by_cases hfb : s.frontOff = s.backOff
  · show ctrlInv s.cfg (fillScreen s c).mem s.frontOff
    rw [hfb]
    exact fillScreen_ctrlInv s c hrs hps
  · show ctrlInv s.cfg (fillScreen s c).mem s.frontOff
    refine ctrlInv_eqOn s.cfg s.mem _ s.frontOff hrs ?_ hf
    intro a ha
    apply fillScreen_mem_outside s c _ hrs hps
    have e : s.cfg.depth * 16 * s.cfg.row_size = s.cfg.depth * s.cfg.plane_size := by
      rw [hps]; ring
    rw [e] at ha
    rcases ho with ⟨h1, h2⟩ | ⟨h1, h2⟩ | ⟨h1, h2⟩
    · exact absurd (h1.trans h2.symm) hfb
    · left; omega
    · right; omega

theorem goodSt_swapB (s : St) (h : goodSt s) : goodSt (swapBuffersOp s) := by
  obtain ⟨hrs, hps, hf, hb, ho⟩ := h
  simp only [swapBuffersOp]
  split_ifs <;> exact ⟨hrs, hps, hf, hb, ho⟩

theorem goodSt_resync (s : St) (h : goodSt s) : goodSt (resyncOp s) :=
  ⟨h.1, h.2.1, h.2.2.1, h.2.2.2.1, h.2.2.2.2⟩

theorem goodSt_tick (s : St) (h : goodSt s) : goodSt (updateDisplay s).1 := by
  obtain ⟨hrs, hps, hf, hb, ho⟩ := h
  have hcfg := updateDisplay_cfg s
  have hmem := updateDisplay_mem s
  rcases updateDisplay_offsets s with ⟨h1, h2⟩ | ⟨h1, h2⟩
  · refine ⟨by rw [hcfg]; exact hrs, by rw [hcfg]; exact hps,
      by rw [hcfg, hmem, h1]; exact hf, by rw [hcfg, hmem, h2]; exact hb, ?_⟩
    simp only [offsetsOK]
    rw [hcfg, h1, h2]
    exact ho
  · refine ⟨by rw [hcfg]; exact hrs, by rw [hcfg]; exact hps,
      by rw [hcfg, hmem, h1]; exact hb, by rw [hcfg, hmem, h2]; exact hf, ?_⟩
    simp only [offsetsOK]
    rw [hcfg, h1, h2]
    rcases ho with ⟨e1, e2⟩ | ⟨e1, e2⟩ | ⟨e1, e2⟩ <;> simp [e1, e2]

theorem goodSt_step (s : St) (e : Ev) (h : goodSt s) : goodSt (stepEv s e) := by
  cases e with
  | draw x y c => exact goodSt_drawPixel s x y c h
  | fill c => exact goodSt_fillScreen s c h
  | swapB => exact goodSt_swapB s h
  | tickE => exact goodSt_tick s h
  | resyncE => exact goodSt_resync s h

theorem goodSt_runEv (s : St) (es : List Ev) (h : goodSt s) : goodSt (runEv s es) := by
  induction es generalizing s with
  | nil => exact h
  | cons e t ih => exact ih (stepEv s e) (goodSt_step s e h)

end RGB

namespace RGB

/-! ### The invariant is established at construction -/

theorem mkCfg_height_eq (x y d : Nat) (dbe : Bool) :
    (mkCfg x y d dbe).height = 32 * ((mkCfg x y d dbe).height >>> 5) := by
  show (y >>> 5) <<< 5 = 32 * (((y >>> 5) <<< 5) >>> 5)
  have h1 : ((y >>> 5) <<< 5) >>> 5 = y >>> 5 := by
    rw [Nat.shiftLeft_eq, Nat.shiftRight_eq_div_pow]
    exact Nat.mul_div_cancel _ (by norm_num)
  rw [h1, Nat.shiftLeft_eq]
  ring

theorem mkCfg_row_size_pos (x y d : Nat) (dbe : Bool)
    (hx : 0 < x >>> 5) (hy : 0 < y >>> 5) :
    0 < (mkCfg x y d dbe).row_size := by
  rw [Cfg.row_size]
  show 0 < ((x >>> 5) <<< 5) * (((y >>> 5) <<< 5) >>> 5)
  have h1 : ((y >>> 5) <<< 5) >>> 5 = y >>> 5 := by
    rw [Nat.shiftLeft_eq, Nat.shiftRight_eq_div_pow]
    exact Nat.mul_div_cancel _ (by norm_num)
  rw [h1, Nat.shiftLeft_eq]
  exact Nat.mul_pos (Nat.mul_pos hx (by norm_num)) hy

theorem goodSt_after_single_fill (s0 : St)
    (hrs : 0 < s0.cfg.row_size) (hps : s0.cfg.plane_size = 16 * s0.cfg.row_size)
    (hfront : s0.frontOff = 0) (hback : s0.backOff = 0) :
    goodSt (fillScreen s0 0) := by
  have hctrl := fillScreen_ctrlInv s0 0 hrs hps
  refine ⟨hrs, hps, ?_, hctrl, ?_⟩
  · show ctrlInv s0.cfg (fillScreen s0 0).mem s0.frontOff
    rw [show s0.frontOff = s0.backOff by omega]
    exact hctrl
  · left
    exact ⟨hfront, hback⟩

/-- goodSt only depends on cfg, mem and the two offsets. -/
theorem goodSt_of_fields (s1 s2 : St) (hcfg : s2.cfg = s1.cfg) (hmem : s2.mem = s1.mem)
    (hf : s2.frontOff = s1.frontOff) (hb : s2.backOff = s1.backOff)
    (h : goodSt s1) : goodSt s2 := by
  obtain ⟨h1, h2, h3, h4, h5⟩ := h
  refine ⟨by rw [hcfg]; exact h1, by rw [hcfg]; exact h2,
    by rw [hcfg, hmem, hf]; exact h3, by rw [hcfg, hmem, hb]; exact h4, ?_⟩
  simp only [offsetsOK]
  rw [hcfg, hf, hb]
  exact h5

theorem goodSt_after_double_fill (s0 sb : St)
    (hrs : 0 < s0.cfg.row_size) (hps : s0.cfg.plane_size = 16 * s0.cfg.row_size)
    (hfront : s0.frontOff = 0)
    (hback : s0.backOff = s0.cfg.depth * s0.cfg.plane_size)
    (hcfg : sb.cfg = s0.cfg) (hmem : sb.mem = (fillScreen s0 0).mem)
    (hsf : sb.frontOff = s0.backOff) (hsb : sb.backOff = s0.frontOff) :
    goodSt (fillScreen sb 0) := by
  have hrs2 : 0 < sb.cfg.row_size := by rw [hcfg]; exact hrs
  have hps2 : sb.cfg.plane_size = 16 * sb.cfg.row_size := by rw [hcfg]; exact hps
  have hsa := fillScreen_ctrlInv s0 0 hrs hps
  refine ⟨hrs2, hps2, ?_, fillScreen_ctrlInv sb 0 hrs2 hps2, ?_⟩
  · show ctrlInv sb.cfg (fillScreen sb 0).mem sb.frontOff
    rw [hcfg, hsf]
    refine ctrlInv_eqOn s0.cfg (fillScreen s0 0).mem _ s0.backOff hrs ?_ hsa
    intro a ha
    have hcond : s0.backOff + a < sb.backOff ∨
        sb.backOff + sb.cfg.depth * sb.cfg.plane_size ≤ s0.backOff + a := by
      right
      rw [hsb, hcfg]
      omega
    rw [fillScreen_mem_outside sb 0 (s0.backOff + a) hrs2 hps2 hcond, hmem]
  · right; right
    constructor
    · show sb.frontOff = sb.cfg.depth * sb.cfg.plane_size
      rw [hsf, hcfg]
      exact hback
    · show sb.backOff = 0
      rw [hsb]
      exact hfront

/-- The freshly allocated state of init (lines 56-75), before the fills. -/
def s0Of (x y d : Nat) (dbe : Bool) (junk : Buf) : St :=
  { cfg := mkCfg x y d dbe, mem := junk, frontOff := 0,
    backOff := if dbe then (2 * (d * (mkCfg x y d dbe).plane_size)) >>> 1 else 0,
    swapReq := false, resyncFlag := false, row := 0, plane := 0 }

/-- The state after the first fill and pointer swap of init (lines 87-92). -/
def sbOf (x y d : Nat) (junk : Buf) : St :=
  { fillScreen (s0Of x y d true junk) 0 with
    frontOff := (fillScreen (s0Of x y d true junk) 0).backOff,
    backOff := (fillScreen (s0Of x y d true junk) 0).frontOff }

theorem goodSt_construct (x y d : Nat) (dbe : Bool) (junk : Buf)
    (hx : 0 < x >>> 5) (hy : 0 < y >>> 5) :
    goodSt (construct x y d dbe junk) := by
  have hrs := mkCfg_row_size_pos x y d dbe hx hy
  have hps := plane_size_eq (mkCfg x y d dbe) (mkCfg_height_eq x y d dbe)
  cases dbe with
  | false =>
    refine goodSt_of_fields (fillScreen (s0Of x y d false junk) 0)
      (construct x y d false junk) rfl rfl rfl rfl ?_
    exact goodSt_after_single_fill (s0Of x y d false junk) hrs hps rfl rfl
  | true =>
    have hb : (s0Of x y d true junk).backOff =
        (s0Of x y d true junk).cfg.depth * (s0Of x y d true junk).cfg.plane_size := by
      show (if true then (2 * (d * (mkCfg x y d true).plane_size)) >>> 1 else 0) =
        d * (mkCfg x y d true).plane_size
      rw [if_pos rfl, Nat.shiftRight_eq_div_pow, pow_one]
      omega
    refine goodSt_of_fields (fillScreen (sbOf x y d junk) 0)
      (construct x y d true junk) rfl rfl rfl rfl ?_
    exact goodSt_after_double_fill (s0Of x y d true junk) (sbOf x y d junk)
      hrs hps rfl hb rfl rfl rfl rfl

/-- Claim C1: for every constructed panel (width and height truncated to
multiples of 32, any depth) and after any finite sequence of driver
events - in particular any sequence of drawPixel and fillScreen calls -
bits 6 and 7 of every byte at offset k * row_size - 1 (k in
[1, depth*16]) are 1 in both the front and the back buffer, and bits 6
and 7 of every other byte of both buffers are 0. -/
theorem C1_control_bit_invariant (x y d : Nat) (dbe : Bool) (junk : Buf) (es : List Ev)
    (hx : 0 < x >>> 5) (hy : 0 < y >>> 5) (_hd1 : 1 ≤ d) (_hd4 : d ≤ 4) :
    ctrlInv (runEv (construct x y d dbe junk) es).cfg
        (runEv (construct x y d dbe junk) es).mem
        (runEv (construct x y d dbe junk) es).frontOff ∧
    ctrlInv (runEv (construct x y d dbe junk) es).cfg
        (runEv (construct x y d dbe junk) es).mem
        (runEv (construct x y d dbe junk) es).backOff := by
  have h := goodSt_runEv (construct x y d dbe junk) es (goodSt_construct x y d dbe junk hx hy)
  exact ⟨h.2.2.1, h.2.2.2.1⟩

/-- Witness for C1_control_bit_invariant: 32x32, depth 1, double
buffered, one drawPixel followed by one fillScreen. -/
theorem C1_control_bit_invariant_witness :
    (0 < 32 >>> 5 ∧ 0 < 32 >>> 5 ∧ 1 ≤ 1 ∧ 1 ≤ 4) ∧
    (ctrlInv (runEv (construct 32 32 1 true (fun _ => 0)) [Ev.draw 3 5 0xF800, Ev.fill 7]).cfg
        (runEv (construct 32 32 1 true (fun _ => 0)) [Ev.draw 3 5 0xF800, Ev.fill 7]).mem
        (runEv (construct 32 32 1 true (fun _ => 0)) [Ev.draw 3 5 0xF800, Ev.fill 7]).frontOff ∧
     ctrlInv (runEv (construct 32 32 1 true (fun _ => 0)) [Ev.draw 3 5 0xF800, Ev.fill 7]).cfg
        (runEv (construct 32 32 1 true (fun _ => 0)) [Ev.draw 3 5 0xF800, Ev.fill 7]).mem
        (runEv (construct 32 32 1 true (fun _ => 0)) [Ev.draw 3 5 0xF800, Ev.fill 7]).backOff) :=
  ⟨⟨by decide, by decide, by decide, by decide⟩,
   C1_control_bit_invariant 32 32 1 true (fun _ => 0) [Ev.draw 3 5 0xF800, Ev.fill 7]
     (by decide) (by decide) (by decide) (by decide)⟩

end RGB

namespace RGB

set_option maxRecDepth 100000

/-! ### Claim C6: fillScreen's per-plane bit positions -/

/-- Claim C6 (divergence witness): on the default depth 3, fillScreen
derives plane 0's triple from bit 14 of the color (12+p with p = 2),
not from bit 15 as drawPixel and the claim do.  For c = 0x8000 (only
the red MSB set) fillScreen writes 0x00 into the non-control bytes of
plane 0, while drawPixel(0, 16, 0x8000) on the same state writes the
red bit (0x04) into the very same byte.  The two paths agree only when
depth = 4. -/
theorem C6_fillScreen_plane_bits_bug :
    (fillScreen (construct 32 32 3 false (fun _ => 0)) 0x8000).mem 0 = 0 ∧
    (drawPixel (fillScreen (construct 32 32 3 false (fun _ => 0)) 0x8000)
        0 16 0x8000).mem 0 = 4 ∧
    fillColor 0x8000 2 = 0 ∧
    (fillScreen (construct 32 32 4 false (fun _ => 0)) 0x8000).mem 0 = 0x24 := by
  refine ⟨by decide, by decide, by decide, by decide⟩

/-! ### Claim C8: the flipped-panel write of scenario S3 -/

/-- Claim C8 (counterexample): on a 32x64 depth-3 panel,
drawPixel(0, 32, Color444(15,0,0)) does not touch the byte at plane 0,
row 15, column 2W-2 = 62 (address 15*64+62 = 1022): that byte is
unchanged and its bit 2 stays clear.  The write lands one column to the
right, in the control byte at column 2W-1. -/
theorem C8_counterexample :
    (drawPixel (construct 32 64 3 false (fun _ => 0)) 0 32 (Color444 15 0 0)).mem 1022 =
      (construct 32 64 3 false (fun _ => 0)).mem 1022 ∧
    Nat.testBit ((drawPixel (construct 32 64 3 false (fun _ => 0)) 0 32
        (Color444 15 0 0)).mem 1022) 2 = false := by
  refine ⟨by decide, by decide⟩

set_option maxHeartbeats 8000000 in
/-- Claim C8 (amended): the transformed column is (W-1) + W = 2W-1 = 63,
the final (control) byte of the row, so drawPixel(0, 32, Color444(15,0,0))
modifies, in plane 0, exactly the byte at row 15, column 2W-1 (address
15*64 + 63 = 1023), setting bit 2 (lower-half red) in it and preserving
its control bits (0xC0 becomes 0xC4). -/
theorem C8_amended_flipped_write :
    (construct 32 64 3 false (fun _ => 0)).mem 1023 = 0xC0 ∧
    (drawPixel (construct 32 64 3 false (fun _ => 0)) 0 32 (Color444 15 0 0)).mem 1023 =
      0xC4 ∧
    Nat.testBit ((drawPixel (construct 32 64 3 false (fun _ => 0)) 0 32
        (Color444 15 0 0)).mem 1023) 2 = true ∧
    (∀ a, a < 1024 → a ≠ 1023 →
      (drawPixel (construct 32 64 3 false (fun _ => 0)) 0 32 (Color444 15 0 0)).mem a =
        (construct 32 64 3 false (fun _ => 0)).mem a) := by
  refine ⟨by decide, by decide, by decide, by decide⟩

/-- Witness for C8_amended_flipped_write, instantiating its bounded
quantifier at a = 0. -/
theorem C8_amended_flipped_write_witness :
    (0 : Nat) < 1024 ∧ (0 : Nat) ≠ 1023 ∧
    (drawPixel (construct 32 64 3 false (fun _ => 0)) 0 32 (Color444 15 0 0)).mem 0 =
      (construct 32 64 3 false (fun _ => 0)).mem 0 :=
  ⟨by decide, by decide, C8_amended_flipped_write.2.2.2 0 (by decide) (by decide)⟩

end RGB
